import Mathlib

/-!
Verification of the connection snapshot/diff/filter/sort core of the
tcp-viewer repository (`src/main.py`, class `TcpViewer`).

The embedding mirrors the Python source:
* a table row is a 10-tuple of cell values (`Row`, cells indexed 0-9 in the
  column order Process, ProcessId, LocalIP, LocalPort, RemoteIP, RemotePort,
  Hostname, Status, Family, Type);
* cell values are Python values: strings, ints, or `None` (`Cell`);
* `getChangeType` embeds `TcpViewer._get_change_type`;
* `updateConnections` embeds the data-transformation part of
  `TcpViewer.update_connections` (error branch, row accumulation, key set,
  tombstone synthesis for vanished keys);
* `parseFilter` / `rowMatchesFilter` embed `TcpViewer._parse_filter` and
  `TcpViewer._row_matches_filter`;
* `sortByColumnFull` embeds `TcpViewer._sort_by_column` together with the
  per-column toggle state `sort_orders` and the header labels.
-/

/-- A Python cell value as it occurs in a row tuple: a string, an int, or
`None`.  Equality is Python equality (values of distinct kinds are never
equal, which matches Python for `str`/`int`/`None`). -/
inductive Cell where
  | str (s : String)
  | int (n : Int)
  | pynone
deriving DecidableEq, Repr

/-- Python `str(val)` for a cell value. -/
def Cell.toStr : Cell → String
  | .str s => s
  | .int n => toString n
  | .pynone => "None"

/-- One row of the connection table, as built in `update_connections`:
`(process_name, pid, local_ip, local_port, remote_ip, remote_port, hostname,
status, family_name, sock_type_name)`. -/
structure Row where
  process : Cell
  pid : Cell
  localIP : Cell
  localPort : Cell
  remoteIP : Cell
  remotePort : Cell
  hostname : Cell
  status : Cell
  family : Cell
  sockType : Cell
deriving DecidableEq, Repr

/-- The cells of a row in column order, i.e. the Python tuple. -/
def Row.cells (r : Row) : List Cell :=
  [r.process, r.pid, r.localIP, r.localPort, r.remoteIP, r.remotePort,
   r.hostname, r.status, r.family, r.sockType]

/-- Python `row[i]` (only ever used with `i < 10` in the source). -/
def Row.get (r : Row) (i : Nat) : Cell := r.cells.getD i (Cell.str "")

/-- The identity key `(row[2], row[3])`, i.e. `(local_ip, local_port)`, used
by `_get_change_type` and the deleted-connection scan. -/
def Row.key (r : Row) : Cell × Cell := (r.localIP, r.localPort)

/-- Result of `_get_change_type`: `"added"`, `"changed"` or `"existing"`
(existing = unchanged, no highlight). -/
inductive ChangeType where
  | added
  | changed
  | existing
deriving DecidableEq, Repr

/-- Embedding of `TcpViewer._get_change_type` (src/main.py lines 450-469):
on an empty previous snapshot return `existing`; otherwise scan
`previous_data` in order and decide against the FIRST row whose identity key
matches; no key match means `added`. -/
def getChangeType (previousData : List Row) (newRow : Row) : ChangeType :=
  if previousData = [] then .existing
  else
    match previousData.find? (fun prev => decide (prev.key = newRow.key)) with
    | some prev => if newRow ≠ prev then .changed else .existing
    | none => .added

/-- Embedding of the tombstone construction of `update_connections`
(lines 433-434): `str(val) + " (DELETED)"` on column 0, all other columns
unchanged. -/
def tombstone (r : Row) : Row :=
  ⟨Cell.str (r.process.toStr ++ " (DELETED)"), r.pid, r.localIP, r.localPort,
   r.remoteIP, r.remotePort, r.hostname, r.status, r.family, r.sockType⟩

/-- The synthetic error row of `update_connections` (line 355):
`("Error", "", str(err), "", "", "", "", "", "", "")`. -/
def errorRow (err : String) : Row :=
  ⟨Cell.str "Error", Cell.str "", Cell.str err, Cell.str "", Cell.str "",
   Cell.str "", Cell.str "", Cell.str "", Cell.str "", Cell.str ""⟩

/-- The two data stores written by one `update_connections` call:
`self.connection_data` and `self.displayed_data`. -/
structure UpdateResult where
  connectionData : List Row
  displayedData : List Row
deriving DecidableEq, Repr

/-- Embedding of the data-transformation part of
`TcpViewer.update_connections` (lines 343-435).  The argument `conns` is the
outcome of snapshot building: `Except.error err` when
`psutil.net_connections` raises, otherwise the list of built rows.  The
success branch mirrors the two loops of the source: the first loop appends
each row to `connection_data` and `displayed_data` and collects its identity
key into `current_keys`; the second loop (guarded by
`if self.previous_data:`) appends a tombstoned copy of every previous row
whose key is absent from `current_keys`. -/
def updateConnections (previousData : List Row) (conns : Except String (List Row)) :
    UpdateResult :=
  match conns with
  | .error err => ⟨[errorRow err], [errorRow err]⟩
  | .ok current =>
    let st := current.foldl
      (fun (st : List Row × List Row × List (Cell × Cell)) row =>
        (st.1 ++ [row], st.2.1 ++ [row], st.2.2 ++ [row.key]))
      ([], [], [])
    let currentKeys := st.2.2
    let displayed :=
      if previousData ≠ [] then
        previousData.foldl
          (fun acc prev =>
            if prev.key ∉ currentKeys then acc ++ [tombstone prev] else acc)
          st.2.1
      else st.2.1
    ⟨st.1, displayed⟩

/-- Classification following the SPEC's words (not the code), for comparison:
"Build an identity-key index of `previous` (key → row; on collision, last row
wins)" — i.e. the current row is compared against the LAST previous row whose
identity key matches. -/
def getChangeTypeLastWins (previousData : List Row) (newRow : Row) : ChangeType :=
  if previousData = [] then .existing
  else
    match previousData.reverse.find? (fun prev => decide (prev.key = newRow.key)) with
    | some prev => if newRow ≠ prev then .changed else .existing
    | none => .added

/-- Python `str.lower()` (ASCII case folding, which is all the source relies
on). -/
def pyLower (s : String) : String := String.mk (s.data.map Char.toLower)

/-- Worker for `pySplit`: splits a character list at whitespace runs,
dropping empty pieces, like Python `str.split()` with no argument. -/
def splitWsAux : List Char → List Char → List (List Char)
  | [], acc => if acc.isEmpty then [] else [acc]
  | c :: cs, acc =>
    if c.isWhitespace then
      if acc.isEmpty then splitWsAux cs [] else acc :: splitWsAux cs []
    else splitWsAux cs (acc ++ [c])

/-- Python `str.split()` (split on whitespace runs, no empty terms). -/
def pySplit (s : String) : List String := (splitWsAux s.data []).map String.mk

/-- Python `term.split(':', 1)` preceded by the `':' in term` test: `none`
when the term has no colon, otherwise the parts before and after the first
colon. -/
def breakColon : List Char → Option (List Char × List Char)
  | [] => none
  | c :: cs =>
    if c = ':' then some ([], cs)
    else
      match breakColon cs with
      | some (k, v) => some (c :: k, v)
      | none => none

/-- A key of the filter dict built by `_parse_filter`: a column index (from
`column_mapping`) or the `'general'` slot for a bare term. -/
inductive FKey where
  | col (i : Nat)
  | general
deriving DecidableEq, Repr

/-- The `column_mapping` dict of `_parse_filter` (lines 172-183). -/
def columnMapping : List (String × Nat) :=
  [("name", 0), ("pid", 1), ("lip", 2), ("lport", 3), ("rip", 4),
   ("rport", 5), ("host", 6), ("status", 7), ("family", 8), ("type", 9)]

/-- How `_parse_filter` treats one (already lower-cased) term: a colon term
with a recognized key becomes a column filter, a colon term with an
unrecognized key is dropped, a bare term goes to the `'general'` slot. -/
def termKey (t : String) : Option (FKey × String) :=
  match breakColon t.data with
  | some (k, v) =>
    match columnMapping.lookup (String.mk k) with
    | some idx => some (FKey.col idx, String.mk v)
    | none => none
  | none => some (FKey.general, t)

/-- Python dict assignment `filters[k] = v` on an association list with
unique keys kept in insertion order. -/
def dictInsert (m : List (FKey × String)) (k : FKey) (v : String) :
    List (FKey × String) :=
  if m.any (fun q => decide (q.1 = k)) then
    m.map (fun q => if q.1 = k then (k, v) else q)
  else m ++ [(k, v)]

/-- Embedding of `TcpViewer._parse_filter` (lines 169-200): lower-case the
filter string, split on whitespace, and fold the terms into a dict (a later
term with the same key OVERWRITES an earlier one, as Python dict assignment
does). -/
def parseFilter (filterStr : String) : List (FKey × String) :=
  (pySplit (pyLower filterStr)).foldl
    (fun filters t =>
      match termKey t with
      | some kv => dictInsert filters kv.1 kv.2
      | none => filters)
    []

/-- The recognized terms of a filter string in source order, before the
dict collapses duplicate keys. -/
def recognizedTerms (filterStr : String) : List (FKey × String) :=
  (pySplit (pyLower filterStr)).filterMap termKey

/-- `lastBindingR k v ts` states that `(k, v)` is the LAST term of `ts`
carrying key `k` (stated independently of the dict fold, for the amended
filter claim). -/
def lastBindingR (k : FKey) (v : String) : List (FKey × String) → Prop
  | [] => False
  | kv :: rest => lastBindingR k v rest ∨ (kv = (k, v) ∧ ∀ q ∈ rest, q.1 ≠ k)

/-- Python substring containment `needle in hay` on character lists. -/
def isInfixCh (needle : List Char) : List Char → Bool
  | [] => needle.isPrefixOf []
  | c :: cs => needle.isPrefixOf (c :: cs) || isInfixCh needle cs

/-- Python `needle in hay` for strings. -/
def strContainsB (hay needle : String) : Bool := isInfixCh needle.data hay.data

/-- `' '.join(str(val).lower() for val in row)` of `_row_matches_filter`. -/
def rowText (r : Row) : String :=
  String.intercalate " " (r.cells.map (fun c => pyLower c.toStr))

/-- One dict entry check of `_row_matches_filter` (lines 202-219): a
`'general'` entry is a substring test against the joined lower-cased row
text; a column entry is a substring test against the lower-cased cell,
`False` when the index is out of range. -/
def termMatches (r : Row) : FKey × String → Bool
  | (FKey.general, v) => strContainsB (rowText r) v
  | (FKey.col i, v) =>
    if i < r.cells.length then strContainsB (pyLower ((r.get i).toStr)) v
    else false

/-- Embedding of `TcpViewer._row_matches_filter`: every dict entry must
match (the Python loop returns `False` at the first failing entry). -/
def rowMatchesFilter (r : Row) (filters : List (FKey × String)) : Bool :=
  filters.all (fun kv => termMatches r kv)

/-- The sortable columns, in the order of the `columns` tuple of the
source; `sockType` is the `"Type"` column. -/
inductive Column where
  | process | processId | localIP | localPort | remoteIP | remotePort
  | hostname | status | family | sockType
deriving DecidableEq, Repr

/-- The `col_indices` dict of `_sort_by_column` (lines 296-307). -/
def Column.index : Column → Nat
  | .process => 0
  | .processId => 1
  | .localIP => 2
  | .localPort => 3
  | .remoteIP => 4
  | .remotePort => 5
  | .hostname => 6
  | .status => 7
  | .family => 8
  | .sockType => 9

/-- The on-screen header label of a column. -/
def Column.header : Column → String
  | .process => "Process"
  | .processId => "ProcessId"
  | .localIP => "LocalIP"
  | .localPort => "LocalPort"
  | .remoteIP => "RemoteIP"
  | .remotePort => "RemotePort"
  | .hostname => "Hostname"
  | .status => "Status"
  | .family => "Family"
  | .sockType => "Type"

/-- The `col in ("ProcessId", "LocalPort", "RemotePort")` test of
`_sort_by_column` (line 312). -/
def Column.isNumeric : Column → Bool
  | .processId => true
  | .localPort => true
  | .remotePort => true
  | _ => false

/-- The characters of the removal marker `" (DELETED)"`. -/
def delMarker : List Char := " (DELETED)".data

/-- Worker for `strStripDel` with explicit fuel (the fuel is always at
least the list length, so the `0, l` case is unreachable). -/
def stripDelFuel : Nat → List Char → List Char
  | _, [] => []
  | 0, l => l
  | fuel + 1, c :: cs =>
    if delMarker.isPrefixOf (c :: cs) then stripDelFuel fuel (cs.drop 9)
    else c :: stripDelFuel fuel cs

/-- Python `s.replace(" (DELETED)", "")`: drop every (non-overlapping,
left-to-right) occurrence of the removal marker. -/
def strStripDel (s : String) : String := String.mk (stripDelFuel s.data.length s.data)

/-- Python `int(s)` for a non-empty all-digit string. -/
def pyStrToNat (s : String) : Nat :=
  s.data.foldl (fun n c => n * 10 + (c.toNat - 48)) 0

/-- The `numeric_key` closure of `_sort_by_column` (lines 314-316) applied
to a cell's string form: strip the removal marker, parse as an integer when
the remainder is non-empty and all digits, else `0`. -/
def pyNumKeyStr (s : String) : Nat :=
  let val := strStripDel s
  if val ≠ "" ∧ val.data.all Char.isDigit then pyStrToNat val else 0

/-- `numeric_key(x)` for a row. -/
def numericKey (col : Column) (r : Row) : Nat := pyNumKeyStr ((r.get col.index).toStr)

/-- The string sort key of `_sort_by_column` (line 327):
`str(x[i]).replace(" (DELETED)", "").lower()`. -/
def stringKey (col : Column) (r : Row) : String :=
  pyLower (strStripDel ((r.get col.index).toStr))

/-- A sort key: an integer for the PID/port columns, a string otherwise. -/
inductive SKey where
  | num (n : Nat)
  | str (s : String)
deriving DecidableEq, Repr

/-- Comparison of sort keys; a fixed column only ever produces keys of one
kind, so the cross-kind cases are arbitrary (chosen to keep the relation
total and transitive). -/
def skLe : SKey → SKey → Bool
  | .num a, .num b => decide (a ≤ b)
  | .str a, .str b => decide (a ≤ b)
  | .num _, .str _ => true
  | .str _, .num _ => false

/-- The sort key `_sort_by_column` uses for `col`. -/
def rowSortKey (col : Column) (r : Row) : SKey :=
  if col.isNumeric then .num (numericKey col r) else .str (stringKey col r)

/-- Stable insertion: place `a` before the first element `b` with
`le a b`. -/
def insertLe {α : Type} (le : α → α → Bool) (a : α) : List α → List α
  | [] => [a]
  | b :: l => if le a b then a :: b :: l else b :: insertLe le a l

/-- Stable insertion sort.  For a total preorder this computes the unique
stable ordering, which is what Python's guaranteed-stable `sorted` returns. -/
def sortLe {α : Type} (le : α → α → Bool) : List α → List α
  | [] => []
  | a :: l => insertLe le a (sortLe le l)

/-- Python `sorted(data, key=key, reverse=reverse)` for the key of `col`:
`reverse=True` is the stable descending sort (equal keys keep their original
relative order, as CPython guarantees). -/
def sortRows (col : Column) (reverse : Bool) (data : List Row) : List Row :=
  if reverse then
    sortLe (fun x y => skLe (rowSortKey col y) (rowSortKey col x)) data
  else
    sortLe (fun x y => skLe (rowSortKey col x) (rowSortKey col y)) data

/-- State produced by one `_sort_by_column` call: the displayed order, the
`sort_orders` dict and the header labels. -/
structure SortResult where
  data : List Row
  orders : Column → Bool
  headings : Column → String

/-- Embedding of `TcpViewer._sort_by_column` (lines 282-341).  On empty data
the method returns immediately (no toggle, no header change).  Otherwise it
toggles `sort_orders[col]`, sets `reverse = not sort_orders[col]`, sorts with
the column-type-aware key, labels the clicked header with its arrow and
resets every other header to its plain name.  Note the method sorts the
stored data list each time — a sort never mutates `displayed_data` or
`filtered_data`, so two consecutive calls sort the SAME input list. -/
def sortByColumnFull (orders : Column → Bool) (headings : Column → String)
    (col : Column) (dataToSort : List Row) : SortResult :=
  if dataToSort = [] then ⟨dataToSort, orders, headings⟩
  else
    let newOrders : Column → Bool := fun c => if c = col then !(orders col) else orders c
    let reverse : Bool := !(newOrders col)
    ⟨sortRows col reverse dataToSort, newOrders,
     fun c =>
       if c = col then col.header ++ " " ++ (if reverse then "↓" else "↑")
       else c.header⟩

/-- A concrete row for examples and witnesses. -/
def mkRow (pname ip : String) (port : Int) (st : String) : Row :=
  ⟨Cell.str pname, Cell.int 1, Cell.str ip, Cell.int port, Cell.str "",
   Cell.str "", Cell.str "", Cell.str st, Cell.str "AF_INET",
   Cell.str "SOCK_STREAM"⟩

/-- Two distinct rows sharing one identity key (wildcard-bound listeners). -/
def rowA : Row := mkRow "alpha" "0.0.0.0" 80 "LISTEN"

/-- Second row of the colliding pair. -/
def rowB : Row := mkRow "beta" "0.0.0.0" 80 "LISTEN"

/-- A row whose identity key `("10.0.0.1", 10)` is unique in the examples. -/
def rowW1 : Row := mkRow "w1" "10.0.0.1" 10 "ESTABLISHED"

/-- A row whose identity key `("10.0.0.2", 20)` is unique in the examples. -/
def rowW2 : Row := mkRow "w2" "10.0.0.2" 20 "ESTABLISHED"

/-- A row whose process name is `firefox` and which contains the substring
`chrome` nowhere. -/
def rowF : Row := mkRow "firefox" "127.0.0.1" 80 "ESTABLISHED"

/-- First of two DISTINCT rows with EQUAL local-port sort key `7`. -/
def rowE1 : Row := mkRow "x" "10.0.0.1" 7 "ESTABLISHED"

/-- Second of two distinct rows with equal local-port sort key `7`. -/
def rowE2 : Row := mkRow "y" "10.0.0.2" 7 "ESTABLISHED"

/-- Row with local port 9 for the numeric-sort example. -/
def rowN9 : Row := mkRow "a" "h1" 9 "ESTABLISHED"

/-- Row with local port 10 for the numeric-sort example. -/
def rowN10 : Row := mkRow "b" "h2" 10 "ESTABLISHED"

/-- Row with local port 2 for the numeric-sort example. -/
def rowN2 : Row := mkRow "c" "h3" 2 "ESTABLISHED"

lemma updateConnections_foldl_rows (current : List Row) :
    ∀ (a b : List Row) (k : List (Cell × Cell)),
      current.foldl
        (fun (st : List Row × List Row × List (Cell × Cell)) row =>
          (st.1 ++ [row], st.2.1 ++ [row], st.2.2 ++ [row.key]))
        (a, b, k)
      = (a ++ current, b ++ current, k ++ current.map Row.key) := by
  induction current with
  | nil => intro a b k; simp
  | cons r t ih =>
    intro a b k
    simp only [List.foldl_cons, ih, List.map_cons]
    simp

lemma updateConnections_foldl_deleted (keys : List (Cell × Cell)) (prev : List Row) :
    ∀ (acc : List Row),
      prev.foldl
        (fun acc p => if p.key ∉ keys then acc ++ [tombstone p] else acc) acc
      = acc ++ (prev.filter (fun p => decide (p.key ∉ keys))).map tombstone := by
  induction prev with
  | nil => intro acc; simp
  | cons p t ih =>
    intro acc
    by_cases hp : p.key ∉ keys
    · simp only [List.foldl_cons, if_pos hp, ih, List.filter_cons,
        decide_eq_true hp, List.map_cons]
      simp
    · simp only [List.foldl_cons, if_neg hp, ih, List.filter_cons]
      simp only [decide_eq_false hp]
      simp

lemma updateConnections_ok_connection (previousData current : List Row) :
    (updateConnections previousData (.ok current)).connectionData = current := by
  simp [updateConnections, updateConnections_foldl_rows]

lemma updateConnections_ok_displayed (previousData current : List Row) :
    (updateConnections previousData (.ok current)).displayedData
      = current ++
        (previousData.filter
          (fun p => decide (p.key ∉ current.map Row.key))).map tombstone := by
  simp only [updateConnections, updateConnections_foldl_rows, List.nil_append]
  by_cases hprev : previousData = []
  · subst hprev; simp
  · rw [if_pos hprev, updateConnections_foldl_deleted]

lemma find?_eq_some_of_first {α : Type} (p : α → Bool) :
    ∀ (l : List α) (i : Nat) (x : α),
      l.get? i = some x → p x = true →
      (∀ q ∈ l.take i, p q = false) →
      l.find? p = some x := by
  intro l
  induction l with
  | nil => intro i x hx _ _; simp at hx
  | cons a t ih =>
    intro i x hx hp hfirst
    cases i with
    | zero =>
      rw [List.get?_cons_zero] at hx
      cases hx
      exact List.find?_cons_of_pos _ hp
    | succ n =>
      have ha : p a = false := hfirst a (by simp)
      rw [List.find?_cons_of_neg _ (by simp [ha])]
      exact ih n x (by simpa using hx) hp
        (fun q hq => hfirst q (by simp [hq]))

/-- C6.  First-run policy: for every current snapshot, diffing against an
empty previous snapshot leaves the displayed data exactly the current rows
(so no Removed/tombstone row is emitted) and `_get_change_type` classifies
every row `existing` (Unchanged). -/
theorem c6_first_run_policy (current : List Row) :
    (updateConnections [] (Except.ok current)).displayedData = current
    ∧ ∀ r : Row, getChangeType [] r = ChangeType.existing := by
  constructor
  · rw [updateConnections_ok_displayed]; simp
  · intro r; simp [getChangeType]

/-- C7.  Diff output order: for every previous and current snapshot, the
displayed data is all current rows first, in their source order, followed by
the tombstoned copies of exactly those previous rows whose identity key is
absent from the current key set, appended at the end (in previous-snapshot
order). -/
theorem c7_diff_output_order (previous current : List Row) :
    (updateConnections previous (Except.ok current)).displayedData
      = current ++
        (previous.filter
          (fun p => decide (p.key ∉ current.map Row.key))).map tombstone :=
  updateConnections_ok_displayed previous current

/-- C9.  Source-failure degradation: when OS connection enumeration fails,
`update_connections` stores exactly one synthetic placeholder row — and
nothing else — in both data stores, for every previous snapshot (hence no
diff or tombstone processing happens), and that row carries the error text
(in its third cell). -/
theorem c9_source_failure (previousData : List Row) (err : String) :
    updateConnections previousData (Except.error err)
        = ⟨[errorRow err], [errorRow err]⟩
    ∧ (errorRow err).localIP = Cell.str err :=
  ⟨rfl, rfl⟩

/-- C10.  Tombstone frame property: every previous row whose identity key is
absent from the current snapshot appears in the displayed data as its
tombstoned copy, which equals the previous row in every field except the
process-name field (column 0), which becomes the previous value's string
form suffixed with `" (DELETED)"`; the other nine columns are exactly the
previous row's values, so tombstoning never adds the marker to any other
column. -/
theorem c10_tombstone_frame (previous current : List Row) (p : Row)
    (hmem : p ∈ previous) (habs : p.key ∉ current.map Row.key) :
    tombstone p ∈ (updateConnections previous (Except.ok current)).displayedData
    ∧ (tombstone p).process = Cell.str (p.process.toStr ++ " (DELETED)")
    ∧ (tombstone p).pid = p.pid
    ∧ (tombstone p).localIP = p.localIP
    ∧ (tombstone p).localPort = p.localPort
    ∧ (tombstone p).remoteIP = p.remoteIP
    ∧ (tombstone p).remotePort = p.remotePort
    ∧ (tombstone p).hostname = p.hostname
    ∧ (tombstone p).status = p.status
    ∧ (tombstone p).family = p.family
    ∧ (tombstone p).sockType = p.sockType := by
  refine ⟨?_, rfl, rfl, rfl, rfl, rfl, rfl, rfl, rfl, rfl, rfl⟩
  rw [updateConnections_ok_displayed]
  apply List.mem_append_right
  apply List.mem_map_of_mem
  rw [List.mem_filter]
  exact ⟨hmem, decide_eq_true habs⟩

/-- Witness for C10 at a concrete input: previous `[rowW1]`, current
`[rowW2]` (different keys), so `rowW1`'s tombstone is displayed. -/
theorem c10_tombstone_frame_witness :
    (rowW1 ∈ [rowW1]) ∧ (rowW1.key ∉ [rowW2].map Row.key)
    ∧ tombstone rowW1
        ∈ (updateConnections [rowW1] (Except.ok [rowW2])).displayedData :=
  ⟨by decide, by decide,
    (c10_tombstone_frame [rowW1] [rowW2] rowW1 (by decide) (by decide)).1⟩

/-- C2 (counterexample).  With previous snapshot `[rowA, rowB]` (two
distinct rows sharing one identity key) and current row `rowB`, the code
classifies `rowB` against the FIRST-seen colliding previous row `rowA` and
returns `changed`, whereas the claimed last-row-wins policy (modelled by
`getChangeTypeLastWins`) would compare against `rowB` itself and return
`existing`. -/
theorem c2_counterexample :
    rowA.key = rowB.key ∧ rowA ≠ rowB
    ∧ getChangeType [rowA, rowB] rowB = ChangeType.changed
    ∧ getChangeTypeLastWins [rowA, rowB] rowB = ChangeType.existing := by
  decide

/-- C2 (amended).  Diff key-collision policy as the code implements it: the
classification of a current row is computed against the FIRST previous row
under its identity key — if `p` sits at position `i` of the previous
snapshot, has the row's key, and no earlier previous row has that key, then
the row is classified `existing` when it equals `p` and `changed`
otherwise. -/
theorem c2_first_match_wins (previousData : List Row) (newRow p : Row) (i : Nat)
    (hip : previousData.get? i = some p) (hkey : p.key = newRow.key)
    (hfirst : ∀ q ∈ previousData.take i, q.key ≠ newRow.key) :
    getChangeType previousData newRow
      = if newRow = p then ChangeType.existing else ChangeType.changed := by
  have hne : previousData ≠ [] := by
    intro h; subst h; simp at hip
  have hfind : previousData.find? (fun prev => decide (prev.key = newRow.key))
      = some p := by
    apply find?_eq_some_of_first _ _ i _ hip (decide_eq_true hkey)
    intro q hq
    exact decide_eq_false (hfirst q hq)
  simp only [getChangeType, if_neg hne, hfind]
  by_cases h : newRow = p
  · simp [h]
  · simp [h]

/-- Witness for C2: in `[rowW2, rowA, rowB]` the first row matching
`rowB`'s key sits at index 1 (`rowA`), and the classification is
`changed`. -/
theorem c2_first_match_wins_witness :
    ([rowW2, rowA, rowB].get? 1 = some rowA)
    ∧ rowA.key = rowB.key
    ∧ (∀ q ∈ [rowW2, rowA, rowB].take 1, q.key ≠ rowB.key)
    ∧ getChangeType [rowW2, rowA, rowB] rowB
        = if rowB = rowA then ChangeType.existing else ChangeType.changed :=
  ⟨by decide, by decide, by decide,
    c2_first_match_wins [rowW2, rowA, rowB] rowB rowA 1 (by decide) (by decide)
      (by decide)⟩

/-- C1 (counterexample).  For the snapshot `S = [rowA, rowB]` containing two
distinct rows with the same identity key, diffing `S` against itself does
NOT classify every row Unchanged: `rowB` is classified `changed` (it is
compared against the first colliding row `rowA`). -/
theorem c1_counterexample :
    rowA.key = rowB.key ∧ rowA ≠ rowB ∧ rowB ∈ [rowA, rowB]
    ∧ getChangeType [rowA, rowB] rowB = ChangeType.changed := by
  decide

/-- C1 (amended).  Diff idempotence as it actually holds: diffing a snapshot
against itself always emits zero Removed rows (the displayed data is exactly
the snapshot), and it classifies every row Unchanged PROVIDED any two rows
of the snapshot sharing an identity key are equal (in particular whenever
the identity keys are pairwise distinct) — the collision case of the
original claim is exactly what fails. -/
theorem c1_diff_idempotence_amended (S : List Row) :
    (updateConnections S (Except.ok S)).displayedData = S
    ∧ ((∀ a ∈ S, ∀ b ∈ S, a.key = b.key → a = b) →
        ∀ r ∈ S, getChangeType S r = ChangeType.existing) := by
  constructor
  · have hfil : S.filter (fun p => decide (p.key ∉ S.map Row.key)) = [] :=
      List.filter_eq_nil_iff.mpr
        (fun p hp => by simpa using List.mem_map_of_mem Row.key hp)
    rw [updateConnections_ok_displayed, hfil, List.map_nil, List.append_nil]
  · intro h r hr
    have hne : S ≠ [] := by intro hS; subst hS; simp at hr
    simp only [getChangeType, if_neg hne]
    cases hfind : S.find? (fun prev => decide (prev.key = r.key)) with
    | none =>
      exfalso
      have hnone := List.find?_eq_none.mp hfind r hr
      simp at hnone
    | some prev =>
      have hkey : prev.key = r.key := by
        have hq := List.find?_some hfind
        simpa using hq
      have hmem : prev ∈ S := List.mem_of_find?_eq_some hfind
      have hrp : r = prev := h r hr prev hmem hkey.symm
      simp [hrp]

/-- Witness for C1 at the collision-free snapshot `[rowW1, rowW2]`: every
row is classified Unchanged. -/
theorem c1_diff_idempotence_amended_witness :
    (∀ a ∈ [rowW1, rowW2], ∀ b ∈ [rowW1, rowW2], a.key = b.key → a = b)
    ∧ ∀ r ∈ [rowW1, rowW2],
        getChangeType [rowW1, rowW2] r = ChangeType.existing :=
  ⟨by decide, (c1_diff_idempotence_amended [rowW1, rowW2]).2 (by decide)⟩

lemma mem_dictInsert (D : List (FKey × String)) (k₀ k : FKey) (v₀ v : String) :
    (k, v) ∈ dictInsert D k₀ v₀ ↔ (k = k₀ ∧ v = v₀) ∨ (k ≠ k₀ ∧ (k, v) ∈ D) := by
  unfold dictInsert
  by_cases hany : D.any (fun q => decide (q.1 = k₀)) = true
  · rw [if_pos hany]
    constructor
    · intro hm
      rcases List.mem_map.mp hm with ⟨q, hq, hfq⟩
      by_cases hq1 : q.1 = k₀
      · rw [if_pos hq1] at hfq
        left
        exact ⟨(congrArg Prod.fst hfq).symm, (congrArg Prod.snd hfq).symm⟩
      · rw [if_neg hq1] at hfq
        right
        refine ⟨?_, hfq ▸ hq⟩
        intro hk
        exact hq1 (by simp [hfq, hk])
    · rintro (⟨hk, hv⟩ | ⟨hk, hm⟩)
      · rcases List.any_eq_true.mp hany with ⟨q, hq, hq1⟩
        refine List.mem_map.mpr ⟨q, hq, ?_⟩
        rw [if_pos (of_decide_eq_true hq1), hk, hv]
      · refine List.mem_map.mpr ⟨(k, v), hm, ?_⟩
        rw [if_neg (by simpa using hk)]
  · rw [if_neg hany]
    have hnok : ∀ q ∈ D, q.1 ≠ k₀ := by
      intro q hq hq1
      exact hany (List.any_eq_true.mpr ⟨q, hq, decide_eq_true hq1⟩)
    rw [List.mem_append]
    constructor
    · rintro (hm | hm)
      · right
        refine ⟨?_, hm⟩
        intro hk
        exact hnok (k, v) hm (by simpa using hk)
      · left
        rcases List.mem_singleton.mp hm with h
        exact ⟨(congrArg Prod.fst h), (congrArg Prod.snd h)⟩
    · rintro (⟨hk, hv⟩ | ⟨hk, hm⟩)
      · right; simp [hk, hv]
      · left; exact hm

lemma mem_foldl_dictInsert :
    ∀ (ts : List (FKey × String)) (D : List (FKey × String)) (k : FKey) (v : String),
      ((k, v) ∈ ts.foldl (fun d kv => dictInsert d kv.1 kv.2) D
        ↔ ((k, v) ∈ D ∧ ∀ q ∈ ts, q.1 ≠ k) ∨ lastBindingR k v ts) := by
  intro ts
  induction ts with
  | nil =>
    intro D k v
    simp [lastBindingR]
  | cons x t ih =>
    intro D k v
    rw [List.foldl_cons, ih, mem_dictInsert]
    simp only [lastBindingR, List.forall_mem_cons, Prod.ext_iff]
    constructor
    · rintro (⟨hx | hx, hall⟩ | hlb)
      · exact Or.inr (Or.inr ⟨⟨hx.1.symm, hx.2.symm⟩, hall⟩)
      · exact Or.inl ⟨hx.2, fun h => hx.1 h.symm, hall⟩
      · exact Or.inr (Or.inl hlb)
    · rintro (⟨hm, hx1, hall⟩ | hlb | ⟨hx, hall⟩)
      · exact Or.inl ⟨Or.inr ⟨fun h => hx1 h.symm, hm⟩, hall⟩
      · exact Or.inr hlb
      · exact Or.inl ⟨Or.inl ⟨hx.1.symm, hx.2.symm⟩, hall⟩

lemma parseFilter_eq_foldl (ts : List String) :
    ∀ D, ts.foldl
        (fun filters t =>
          match termKey t with
          | some kv => dictInsert filters kv.1 kv.2
          | none => filters) D
      = (ts.filterMap termKey).foldl (fun d kv => dictInsert d kv.1 kv.2) D := by
  induction ts with
  | nil => intro D; rfl
  | cons t ts ih =>
    intro D
    cases htk : termKey t with
    | none =>
      simp only [List.foldl_cons, htk, List.filterMap_cons]
      exact ih D
    | some kv =>
      simp only [List.foldl_cons, htk, List.filterMap_cons]
      exact ih (dictInsert D kv.1 kv.2)

lemma mem_parseFilter (s : String) (k : FKey) (v : String) :
    (k, v) ∈ parseFilter s ↔ lastBindingR k v (recognizedTerms s) := by
  unfold parseFilter recognizedTerms
  rw [parseFilter_eq_foldl, mem_foldl_dictInsert]
  simp

/-- C3 (counterexample).  Filter AND semantics fails for two bare terms: the
row `rowF` (process name `firefox`) PASSES the filter string
`"chrome firefox"` although its bare term `chrome` — which is among the
recognized terms of the string — does not match the row: the second bare
term overwrites the first in the filter dict. -/
theorem c3_counterexample :
    rowMatchesFilter rowF (parseFilter "chrome firefox") = true
    ∧ termMatches rowF (FKey.general, "chrome") = false
    ∧ (FKey.general, "chrome") ∈ recognizedTerms "chrome firefox" := by
  decide

/-- C3 (amended).  Filter semantics as the code implements it: a row passes
the filter iff, for every key (recognized column or the bare-term slot), the
LAST term of the filter string carrying that key matches the row — recognized
`key:value` terms as substring match on the named column, bare terms as
case-insensitive substring match over all columns; earlier terms with a
duplicated key (including earlier bare terms) are overwritten by the later
one and impose no constraint. -/
theorem c3_filter_last_term_semantics (r : Row) (s : String) :
    rowMatchesFilter r (parseFilter s) = true
      ↔ ∀ k v, lastBindingR k v (recognizedTerms s) → termMatches r (k, v) = true := by
  unfold rowMatchesFilter
  rw [List.all_eq_true]
  constructor
  · intro h k v hlb
    exact h (k, v) ((mem_parseFilter s k v).mpr hlb)
  · intro h kv hm
    have hres := h kv.1 kv.2 ((mem_parseFilter s kv.1 kv.2).mp (by simpa using hm))
    simpa using hres


lemma insertLe_perm {α : Type} (le : α → α → Bool) (a : α) (l : List α) :
    List.Perm (insertLe le a l) (a :: l) := by
  induction l with
  | nil => exact List.Perm.refl _
  | cons b t ih =>
    by_cases h : le a b = true
    · rw [insertLe, if_pos h]
    · rw [insertLe, if_neg h]
      exact (ih.cons b).trans (List.Perm.swap a b t)

lemma sortLe_perm {α : Type} (le : α → α → Bool) (l : List α) :
    List.Perm (sortLe le l) l := by
  induction l with
  | nil => exact List.Perm.refl _
  | cons a t ih => exact (insertLe_perm le a (sortLe le t)).trans (ih.cons a)

lemma insertLe_pairwise {α : Type} (le : α → α → Bool)
    (htot : ∀ a b, le a b = true ∨ le b a = true)
    (htrans : ∀ a b c, le a b = true → le b c = true → le a c = true)
    (a : α) (l : List α)
    (hl : List.Pairwise (fun x y => le x y = true) l) :
    List.Pairwise (fun x y => le x y = true) (insertLe le a l) := by
  induction l with
  | nil => simp [insertLe]
  | cons b t ih =>
    rcases List.pairwise_cons.mp hl with ⟨hb, ht⟩
    by_cases h : le a b = true
    · rw [insertLe, if_pos h]
      refine List.pairwise_cons.mpr ⟨?_, hl⟩
      intro x hx
      rcases List.mem_cons.mp hx with hx | hx
      · exact hx ▸ h
      · exact htrans a b x h (hb x hx)
    · rw [insertLe, if_neg h]
      refine List.pairwise_cons.mpr ⟨?_, ih ht⟩
      intro x hx
      have hx' := (insertLe_perm le a t).mem_iff.mp hx
      rcases List.mem_cons.mp hx' with hx' | hx'
      · rw [hx']
        rcases htot a b with h1 | h1
        · exact absurd h1 h
        · exact h1
      · exact hb x hx'

lemma sortLe_pairwise {α : Type} (le : α → α → Bool)
    (htot : ∀ a b, le a b = true ∨ le b a = true)
    (htrans : ∀ a b c, le a b = true → le b c = true → le a c = true)
    (l : List α) :
    List.Pairwise (fun x y => le x y = true) (sortLe le l) := by
  induction l with
  | nil => simp [sortLe]
  | cons a t ih => exact insertLe_pairwise le htot htrans a _ ih

lemma sorted_unique {α : Type} (le : α → α → Bool) :
    ∀ (l₁ l₂ : List α), List.Perm l₁ l₂ →
      List.Pairwise (fun x y => le x y = true) l₁ →
      List.Pairwise (fun x y => le x y = true) l₂ →
      (∀ a ∈ l₁, ∀ b ∈ l₁, le a b = true → le b a = true → a = b) →
      l₁ = l₂ := by
  intro l₁
  induction l₁ with
  | nil =>
    intro l₂ hp _ _ _
    exact (List.perm_nil.mp hp.symm).symm
  | cons a t₁ ih =>
    intro l₂ hp h₁ h₂ hanti
    cases l₂ with
    | nil => exact absurd (List.perm_nil.mp hp) (by simp)
    | cons b t₂ =>
      have hab : a = b := by
        by_cases h : a = b
        · exact h
        · have ha2 : a ∈ b :: t₂ := hp.mem_iff.mp (List.mem_cons_self a t₁)
          have hb1 : b ∈ a :: t₁ := hp.mem_iff.mpr (List.mem_cons_self b t₂)
          have hat2 : a ∈ t₂ := by
            rcases List.mem_cons.mp ha2 with h' | h'
            · exact absurd h' h
            · exact h'
          have hbt1 : b ∈ t₁ := by
            rcases List.mem_cons.mp hb1 with h' | h'
            · exact absurd h'.symm h
            · exact h'
          have hle1 : le a b = true := (List.pairwise_cons.mp h₁).1 b hbt1
          have hle2 : le b a = true := (List.pairwise_cons.mp h₂).1 a hat2
          exact hanti a (List.mem_cons_self a t₁) b
            (List.mem_cons.mpr (Or.inr hbt1)) hle1 hle2
      subst hab
      have hpt : List.Perm t₁ t₂ := hp.cons_inv
      have htail := ih t₂ hpt (List.pairwise_cons.mp h₁).2
        (List.pairwise_cons.mp h₂).2
        (fun x hx y hy hxy hyx =>
          hanti x (List.mem_cons.mpr (Or.inr hx)) y
            (List.mem_cons.mpr (Or.inr hy)) hxy hyx)
      rw [htail]

lemma sortLe_flip_reverse {α : Type} (le : α → α → Bool) (l : List α)
    (htot : ∀ a b, le a b = true ∨ le b a = true)
    (htrans : ∀ a b c, le a b = true → le b c = true → le a c = true)
    (hanti : ∀ a ∈ l, ∀ b ∈ l, le a b = true → le b a = true → a = b) :
    sortLe (fun x y => le y x) l = (sortLe le l).reverse := by
  have gtot : ∀ a b : α, le b a = true ∨ le a b = true := fun a b => (htot a b).symm
  have gtrans : ∀ a b c : α, le b a = true → le c b = true → le c a = true :=
    fun a b c h1 h2 => htrans c b a h2 h1
  have hperm : List.Perm (sortLe (fun x y => le y x) l) ((sortLe le l).reverse) :=
    (sortLe_perm _ l).trans
      (((List.reverse_perm (sortLe le l)).trans (sortLe_perm le l)).symm)
  have hpw1 : List.Pairwise (fun x y => le y x = true)
      (sortLe (fun x y => le y x) l) :=
    sortLe_pairwise (fun x y => le y x) gtot gtrans l
  have hpw2 : List.Pairwise (fun x y => le y x = true) ((sortLe le l).reverse) :=
    List.pairwise_reverse.mpr (sortLe_pairwise le htot htrans l)
  apply sorted_unique (fun x y => le y x) _ _ hperm hpw1 hpw2
  intro a ha b hb h1 h2
  have ha' : a ∈ l := ((sortLe_perm _ l).mem_iff).mp ha
  have hb' : b ∈ l := ((sortLe_perm _ l).mem_iff).mp hb
  exact hanti a ha' b hb' h2 h1

lemma skLe_total : ∀ a b : SKey, skLe a b = true ∨ skLe b a = true := by
  intro a b
  cases a with
  | num x =>
    cases b with
    | num y => simp only [skLe, decide_eq_true_eq]; exact Nat.le_total x y
    | str y => simp [skLe]
  | str x =>
    cases b with
    | num y => simp [skLe]
    | str y => simp only [skLe, decide_eq_true_eq]; exact le_total x y

lemma skLe_trans :
    ∀ a b c : SKey, skLe a b = true → skLe b c = true → skLe a c = true := by
  intro a b c h1 h2
  cases a with
  | num x =>
    cases c with
    | num z =>
      cases b with
      | num y =>
        simp only [skLe, decide_eq_true_eq] at h1 h2 ⊢
        exact le_trans h1 h2
      | str y => exact absurd h2 (by simp [skLe])
    | str z => simp [skLe]
  | str x =>
    cases b with
    | num y => exact absurd h1 (by simp [skLe])
    | str y =>
      cases c with
      | num z => exact absurd h2 (by simp [skLe])
      | str z =>
        simp only [skLe, decide_eq_true_eq] at h1 h2 ⊢
        exact le_trans h1 h2

lemma skLe_antisymm :
    ∀ a b : SKey, skLe a b = true → skLe b a = true → a = b := by
  intro a b h1 h2
  cases a with
  | num x =>
    cases b with
    | num y =>
      simp only [skLe, decide_eq_true_eq] at h1 h2
      exact congrArg SKey.num (le_antisymm h1 h2)
    | str y => exact absurd h2 (by simp [skLe])
  | str x =>
    cases b with
    | num y => exact absurd h1 (by simp [skLe])
    | str y =>
      simp only [skLe, decide_eq_true_eq] at h1 h2
      exact congrArg SKey.str (le_antisymm h1 h2)

lemma sortRows_flip (col : Column) (d : List Row)
    (hinj : ∀ a ∈ d, ∀ b ∈ d, rowSortKey col a = rowSortKey col b → a = b) :
    sortRows col true d = (sortRows col false d).reverse := by
  show sortLe (fun x y => skLe (rowSortKey col y) (rowSortKey col x)) d
      = (sortLe (fun x y => skLe (rowSortKey col x) (rowSortKey col y)) d).reverse
  exact sortLe_flip_reverse
    (fun x y => skLe (rowSortKey col x) (rowSortKey col y)) d
    (fun a b => skLe_total _ _)
    (fun a b c h1 h2 => skLe_trans _ _ _ h1 h2)
    (fun a ha b hb h1 h2 => hinj a ha b hb (skLe_antisymm _ _ h1 h2))

/-- C4 (counterexample).  Sort toggle is NOT an exact reverse on data with
equal sort keys: on `[rowE1, rowE2]` (two distinct rows with equal
local-port key 7) the first invocation yields `[rowE1, rowE2]` (stable
descending) and the second yields `[rowE1, rowE2]` again (stable ascending),
which is not the reverse `[rowE2, rowE1]` of the first result. -/
theorem c4_counterexample :
    rowE1 ≠ rowE2
    ∧ rowSortKey Column.localPort rowE1 = rowSortKey Column.localPort rowE2
    ∧ (sortByColumnFull
          (sortByColumnFull (fun _ => true) Column.header Column.localPort
            [rowE1, rowE2]).orders
          (sortByColumnFull (fun _ => true) Column.header Column.localPort
            [rowE1, rowE2]).headings
          Column.localPort [rowE1, rowE2]).data
        ≠ ((sortByColumnFull (fun _ => true) Column.header Column.localPort
            [rowE1, rowE2]).data).reverse := by
  decide

/-- C4 (amended).  Sort toggle involution as it actually holds: for every
non-empty data set in which no two DISTINCT rows share the sort key of the
chosen column, invoking sort-by-column twice in a row on the same column
produces exactly the reverse of the first invocation's result (both
invocations sort the same stored list; with duplicated sort keys the claim
fails because both directions of Python's stable sort keep equal-key rows in
original order). -/
theorem c4_sort_toggle_reverse_amended (orders : Column → Bool)
    (headings : Column → String) (col : Column) (d : List Row)
    (hne : d ≠ [])
    (hinj : ∀ a ∈ d, ∀ b ∈ d, rowSortKey col a = rowSortKey col b → a = b) :
    (sortByColumnFull (sortByColumnFull orders headings col d).orders
        (sortByColumnFull orders headings col d).headings col d).data
      = ((sortByColumnFull orders headings col d).data).reverse := by
  simp only [sortByColumnFull, if_neg hne, eq_self_iff_true, if_true,
    Bool.not_not]
  cases horders : orders col with
  | true =>
    simp only [Bool.not_true]
    rw [sortRows_flip col d hinj, List.reverse_reverse]
  | false =>
    simp only [Bool.not_false]
    exact sortRows_flip col d hinj

/-- Witness for C4 at `[rowW1, rowW2]` (distinct local-port keys 10 and
20). -/
theorem c4_sort_toggle_reverse_amended_witness :
    ([rowW1, rowW2] ≠ ([] : List Row))
    ∧ (∀ a ∈ [rowW1, rowW2], ∀ b ∈ [rowW1, rowW2],
        rowSortKey Column.localPort a = rowSortKey Column.localPort b → a = b)
    ∧ (sortByColumnFull
          (sortByColumnFull (fun _ => true) Column.header Column.localPort
            [rowW1, rowW2]).orders
          (sortByColumnFull (fun _ => true) Column.header Column.localPort
            [rowW1, rowW2]).headings
          Column.localPort [rowW1, rowW2]).data
        = ((sortByColumnFull (fun _ => true) Column.header Column.localPort
            [rowW1, rowW2]).data).reverse :=
  ⟨by decide, by decide,
    c4_sort_toggle_reverse_amended (fun _ => true) Column.header
      Column.localPort [rowW1, rowW2] (by decide) (by decide)⟩

/-- C5 (counterexample).  Switching the sorted column does NOT reset the
direction to ascending: starting from the initial `sort_orders` (all
`True`), sorting by `ProcessId` and then by the different column `LocalPort`
produces `[rowW2, rowW1]` — DESCENDING by local port (`rowW1`'s key 10 is
smaller than `rowW2`'s key 20), because a column's first-ever click sorts
descending (`sort_orders` is toggled before being read). -/
theorem c5_counterexample :
    (sortByColumnFull
        (sortByColumnFull (fun _ => true) Column.header Column.processId
          [rowW1, rowW2]).orders
        (sortByColumnFull (fun _ => true) Column.header Column.processId
          [rowW1, rowW2]).headings
        Column.localPort [rowW1, rowW2]).data = [rowW2, rowW1]
    ∧ rowW1 ≠ rowW2
    ∧ numericKey Column.localPort rowW1 < numericKey Column.localPort rowW2 := by
  decide

/-- C5 (amended).  Column-switch behaviour as the code implements it: when
sort-by-column is invoked on a column whose stored toggle flag is still
`True` (in particular a column never sorted before, regardless of which
column was sorted previously), the sort-direction indicators of all other
columns are cleared and the invoked column is marked `↓`, but the resulting
order is DESCENDING (pairwise non-increasing in the column's sort key), not
ascending: the direction comes from the invoked column's own persisted
toggle state, which switching columns does not reset. -/
theorem c5_column_switch_amended (orders : Column → Bool)
    (headings : Column → String) (col : Column) (d : List Row)
    (hne : d ≠ []) (hfresh : orders col = true) :
    (∀ c, c ≠ col →
      (sortByColumnFull orders headings col d).headings c = c.header)
    ∧ (sortByColumnFull orders headings col d).headings col
        = col.header ++ " " ++ "↓"
    ∧ List.Pairwise
        (fun a b => skLe (rowSortKey col b) (rowSortKey col a) = true)
        (sortByColumnFull orders headings col d).data := by
  refine ⟨?_, ?_, ?_⟩
  · intro c hc
    simp [sortByColumnFull, if_neg hne, hc]
  · simp [sortByColumnFull, if_neg hne, hfresh]
  · simp only [sortByColumnFull, if_neg hne, eq_self_iff_true, if_true,
      Bool.not_not, hfresh]
    show List.Pairwise
      (fun a b => skLe (rowSortKey col b) (rowSortKey col a) = true)
      (sortRows col true d)
    exact sortLe_pairwise
      (fun x y => skLe (rowSortKey col y) (rowSortKey col x))
      (fun a b => skLe_total _ _)
      (fun a b c h1 h2 => skLe_trans _ _ _ h2 h1) d

/-- Witness for C5 at the initial `sort_orders` (all `True`), column
`LocalPort`, data `[rowW1, rowW2]`. -/
theorem c5_column_switch_amended_witness :
    ([rowW1, rowW2] ≠ ([] : List Row))
    ∧ ((fun _ : Column => true) Column.localPort = true)
    ∧ ((∀ c, c ≠ Column.localPort →
          (sortByColumnFull (fun _ => true) Column.header Column.localPort
            [rowW1, rowW2]).headings c = c.header)
        ∧ (sortByColumnFull (fun _ => true) Column.header Column.localPort
            [rowW1, rowW2]).headings Column.localPort
            = Column.localPort.header ++ " " ++ "↓"
        ∧ List.Pairwise
            (fun a b => skLe (rowSortKey Column.localPort b)
              (rowSortKey Column.localPort a) = true)
            (sortByColumnFull (fun _ => true) Column.header Column.localPort
              [rowW1, rowW2]).data) :=
  ⟨by decide, rfl,
    c5_column_switch_amended (fun _ => true) Column.header Column.localPort
      [rowW1, rowW2] (by decide) rfl⟩

/-- C8.  Type-aware numeric sort: for the PID/port columns the comparator
maps a cell string whose marker-stripped form is empty or not all digits to
`0` (first conjunct, for EVERY such string — no error is possible since the
key function is total); ascending sort by `LocalPort` on rows with port
values 9, 10, 2 yields the numeric order 2, 9, 10, not the lexicographic
string order; and a tombstone-suffixed numeric cell is keyed by its stripped
numeric value. -/
theorem c8_numeric_sort (s : String)
    (h : strStripDel s = "" ∨ (strStripDel s).data.all Char.isDigit = false) :
    pyNumKeyStr s = 0
    ∧ (sortRows Column.localPort false [rowN9, rowN10, rowN2]).map
        (fun r => r.localPort) = [Cell.int 2, Cell.int 9, Cell.int 10]
    ∧ pyNumKeyStr "12 (DELETED)" = 12
    ∧ pyNumKeyStr "abc" = 0 := by
  refine ⟨?_, by decide, by decide, by decide⟩
  unfold pyNumKeyStr
  rcases h with h | h
  · rw [if_neg]
    intro hcond
    exact hcond.1 h
  · rw [if_neg]
    intro hcond
    simp [h] at hcond

/-- Witness for C8 at the non-numeric string `"abc"`. -/
theorem c8_numeric_sort_witness :
    (strStripDel "abc" = "" ∨ (strStripDel "abc").data.all Char.isDigit = false)
    ∧ pyNumKeyStr "abc" = 0 :=
  ⟨by decide, (c8_numeric_sort "abc" (by decide)).1⟩
